import Mathlib

/-!
Verification of the cbb-preds feature-engineering and odds pipeline.

The definitions below are shallow embeddings of the Python sources:
* `prob_to_american` embeds `src/predict_for_date.py` lines 44-47;
* `predictFeats` embeds `_add_team_rolling` of `src/predict_for_date.py`
  (lines 15-35), and `trainFeats` embeds `_add_team_rolling` of
  `src/pipeline/build_training_from_games.py` (lines 43-63);
* `asofSnapshot` embeds the as-of rolling snapshot of
  `src/predict_for_date.py` main (lines 189-215);
* `trainingOutput` embeds the eligibility filter and sort of
  `src/pipeline/build_training_from_games.py` main (lines 133-135);
* `dedupFirst` embeds pandas `drop_duplicates(keep="first")` as used in
  `data/build_history.py` line 72, `src/assemble_history.py` line 31 and
  `src/pipeline/ingest_range.py` line 61.

Numeric conventions: Python floats are modelled by `ℚ` (all the constants in
the claims are exactly representable in binary floating point, so the
counterexamples and evaluations transfer); `NaN`/`None` propagation is
modelled by `Option`; calendar dates are modelled by integer day numbers
(only differences and order of dates are ever used by the code).  Pandas
`.std()` is the square root of the sample variance (`ddof = 1`); we carry
the sample variance itself (`qvar`), which determines the std: the std of a
window is defined exactly when the variance is, and two windows have equal
stds iff they have equal variances.
-/

namespace CbbPreds

/-- One row of the team-game log: one team's participation in one game
(the columns of `games_all.parquet` used by the rolling calculators). -/
structure GRow where
  date : ℤ
  game_id : ℕ
  team_id : ℕ
  is_home : Bool
  pts : ℚ
  opp_pts : ℚ
deriving DecidableEq, Repr, Inhabited

/-- The rolling feature record attached to one row: the seven numeric
features consumed downstream (`num_cols` of `predict_for_date.py`).
Std columns are carried as sample variances, see the header comment. -/
structure Feats where
  pts_mean_5 : Option ℚ
  opp_pts_mean_5 : Option ℚ
  margin_mean_5 : Option ℚ
  pts_var_5 : Option ℚ
  opp_pts_var_5 : Option ℚ
  rest_days : ℤ
  gp_prev : ℕ
deriving DecidableEq, Repr

/-- Mean of a list of rationals; `none` on the empty list (pandas rolling
mean with `min_periods = 1` is NaN when no prior observation exists). -/
def qmean (xs : List ℚ) : Option ℚ :=
  if xs.length = 0 then none else some (xs.sum / (xs.length : ℚ))

/-- Sample variance (`ddof = 1`, the square of pandas `.std()`); `none`
when fewer than two observations exist. -/
def qvar (xs : List ℚ) : Option ℚ :=
  if xs.length < 2 then none
  else
    some (((xs.map (fun x => (x - xs.sum / (xs.length : ℚ)) ^ 2)).sum) /
      ((xs.length : ℚ) - 1))

/-- The window of prior games feeding row `i`: the last at most 5 of the
first `i` rows.  Both `_add_team_rolling` variants aggregate exactly this
window: `predict_for_date.py` computes `rolling(5, min_periods=1)` and then
`.shift(1)`, while `build_training_from_games.py` shifts the series first
and then rolls; on series without NaN the two coincide (the shifted NaN at
position 0 is skipped by `min_periods = 1`). -/
def priorWin (l : List GRow) (i : ℕ) : List GRow :=
  (l.take i).drop (i - 5)

/-- Rest-days gap before row `i`: day difference to the previous row,
`fillna(7)` for a team's first game. -/
def gapOrFill (l : List GRow) (i : ℕ) : ℤ :=
  if i = 0 then 7 else (l.getD i default).date - (l.getD (i - 1) default).date

/-- Inference-side rest days (`predict_for_date.py` lines 28-30):
`fillna(7).clip(lower=0)` — a lower clamp only. -/
def predictRest (l : List GRow) (i : ℕ) : ℤ :=
  max 0 (gapOrFill l i)

/-- Training-side rest days (`build_training_from_games.py` lines 60-62):
`fillna(7).clip(lower=0, upper=14)` — clamped into [0, 14]. -/
def trainRest (l : List GRow) (i : ℕ) : ℤ :=
  min 14 (max 0 (gapOrFill l i))

/-- Rolling features attached to row `i` of a team's sorted history by the
inference-side `_add_team_rolling` (`predict_for_date.py` lines 15-35).
`gp_prev` is the positional index (`range(len(df))`). -/
def predictFeats (l : List GRow) (i : ℕ) : Feats :=
  { pts_mean_5 := qmean ((priorWin l i).map (fun r => r.pts))
    opp_pts_mean_5 := qmean ((priorWin l i).map (fun r => r.opp_pts))
    margin_mean_5 := qmean ((priorWin l i).map (fun r => r.pts - r.opp_pts))
    pts_var_5 := qvar ((priorWin l i).map (fun r => r.pts))
    opp_pts_var_5 := qvar ((priorWin l i).map (fun r => r.opp_pts))
    rest_days := predictRest l i
    gp_prev := i }

/-- Rolling features attached to row `i` of a team's sorted history by the
training-side `_add_team_rolling` (`build_training_from_games.py` lines
43-63).  The `margin` column of the log equals `pts - opp_pts` (data-model
invariant, enforced at ingestion); `gp_prev` is `np.arange(len(df))`.  The
only difference from `predictFeats` is the upper rest-days clamp. -/
def trainFeats (l : List GRow) (i : ℕ) : Feats :=
  { pts_mean_5 := qmean ((priorWin l i).map (fun r => r.pts))
    opp_pts_mean_5 := qmean ((priorWin l i).map (fun r => r.opp_pts))
    margin_mean_5 := qmean ((priorWin l i).map (fun r => r.pts - r.opp_pts))
    pts_var_5 := qvar ((priorWin l i).map (fun r => r.pts))
    opp_pts_var_5 := qvar ((priorWin l i).map (fun r => r.opp_pts))
    rest_days := trainRest l i
    gp_prev := i }

/-- Ordering used by `predict_for_date.py`: `sort_values(["date", "game_id"])`. -/
def rowLe (a b : GRow) : Prop :=
  a.date < b.date ∨ (a.date = b.date ∧ a.game_id ≤ b.game_id)

instance : DecidableRel rowLe := fun a b => by
  unfold rowLe; infer_instance

instance : IsTotal GRow rowLe := by
  refine ⟨fun a b => ?_⟩
  unfold rowLe
  omega

instance : IsTrans GRow rowLe := by
  refine ⟨fun a b c hab hbc => ?_⟩
  unfold rowLe at hab hbc ⊢
  omega

/-- A team's chronologically sorted history inside a game log: filter to
the team's rows and sort by (date, game_id), as `predict_for_date.py` does
before applying `_add_team_rolling` per team. -/
def teamHistory (games : List GRow) (t : ℕ) : List GRow :=
  List.insertionSort rowLe (games.filter (fun r => r.team_id == t))

/-- The as-of rolling feature snapshot of `predict_for_date.py` main
(lines 189-215): filter the history to `date < target`, run the rolling
calculator over the team's sorted rows, and keep the latest resulting row
(`groupby(team_id).tail(1)`).  `none` when the team has no row before the
target date. -/
def asofSnapshot (games : List GRow) (target : ℤ) (t : ℕ) : Option Feats :=
  let th := teamHistory (games.filter (fun r => decide (r.date < target))) t
  if th.length = 0 then none else some (predictFeats th (th.length - 1))

/-- Fair American moneyline from a win probability
(`prob_to_american`, `predict_for_date.py` lines 44-47).  `Option.none`
models Python `None` and float NaN, both on input and output. -/
def prob_to_american (p : Option ℚ) : Option ℚ :=
  match p with
  | none => none
  | some q =>
      if q ≤ 0 ∨ 1 ≤ q then none
      else if 1 / 2 ≤ q then some (-100 * q / (1 - q))
      else some (100 * (1 - q) / q)

/-- The away-side probability fed to the converter
(`prob_to_american(1.0 - p)`, `predict_for_date.py` line 245), with NaN
propagation through the subtraction. -/
def oneMinusP (p : Option ℚ) : Option ℚ :=
  match p with
  | none => none
  | some q => some (1 - q)

/-- The implied-probability inverse of American pricing: a negative line
`m` implies probability `(-m)/((-m)+100)`, a positive line `m` implies
`100/(m+100)`.  This is the spec-side inverse against which the round-trip
claim is stated. -/
def impliedProb (m : ℚ) : ℚ :=
  if m < 0 then (-m) / ((-m) + 100) else 100 / (m + 100)

/-- Claim C4: for every `p` strictly inside (0,1) the converter returns
`-100*p/(1-p)` when `p ≥ 1/2` and `100*(1-p)/p` when `p < 1/2`; in
particular 3/4 converts to -300 and 1/4 converts to +300. -/
theorem prob_to_american_formula (p : ℚ) (h0 : 0 < p) (h1 : p < 1) :
    (1 / 2 ≤ p → prob_to_american (some p) = some (-100 * p / (1 - p))) ∧
    (p < 1 / 2 → prob_to_american (some p) = some (100 * (1 - p) / p)) ∧
    prob_to_american (some (3 / 4)) = some (-300) ∧
    prob_to_american (some (1 / 4)) = some 300 := by
  have hno : ¬ (p ≤ 0 ∨ 1 ≤ p) := by push_neg; exact ⟨h0, h1⟩
  refine ⟨fun hp => ?_, fun hp => ?_, by norm_num [prob_to_american],
    by norm_num [prob_to_american]⟩
  · simp only [prob_to_american, if_neg hno, if_pos hp]
  · simp only [prob_to_american, if_neg hno, if_neg (not_le.mpr hp)]

/-- Witness for C4 at `p = 3/4`. -/
theorem prob_to_american_formula_witness :
    prob_to_american (some (3 / 4)) = some (-100 * (3 / 4) / (1 - 3 / 4)) :=
  (prob_to_american_formula (3 / 4) (by norm_num) (by norm_num)).1 (by norm_num)

/-- Claim C5: outside the open interval (0,1) — at exactly 0 or 1, below 0,
above 1, or on missing input — the converter returns the missing value,
never a number. -/
theorem prob_to_american_boundary :
    prob_to_american none = none ∧
    ∀ q : ℚ, q ≤ 0 ∨ 1 ≤ q → prob_to_american (some q) = none := by
  refine ⟨rfl, fun q hq => ?_⟩
  simp only [prob_to_american, if_pos hq]

/-- Witness for C5 at `p = 0`. -/
theorem prob_to_american_boundary_witness :
    prob_to_american (some 0) = none :=
  prob_to_american_boundary.2 0 (Or.inl le_rfl)

/-- Claim C10: for every `p` strictly inside (0,1) the converter output is
defined with absolute value at least 100, and is negative exactly when
`p ≥ 1/2`. -/
theorem prob_to_american_range (p : ℚ) (h0 : 0 < p) (h1 : p < 1) :
    ∃ m : ℚ, prob_to_american (some p) = some m ∧ 100 ≤ |m| ∧
      (m < 0 ↔ 1 / 2 ≤ p) := by
  have hno : ¬ (p ≤ 0 ∨ 1 ≤ p) := by push_neg; exact ⟨h0, h1⟩
  have h1p : 0 < 1 - p := by linarith
  by_cases hp : 1 / 2 ≤ p
  · refine ⟨-100 * p / (1 - p), ?_, ?_, ?_⟩
    · simp only [prob_to_american, if_neg hno, if_pos hp]
    · have hneg : -100 * p / (1 - p) < 0 :=
        div_neg_of_neg_of_pos (by nlinarith) h1p
      have habs : -(-100 * p / (1 - p)) = 100 * p / (1 - p) := by ring
      rw [abs_of_neg hneg, habs, le_div_iff₀ h1p]
      nlinarith
    · constructor
      · intro _; exact hp
      · intro _; exact div_neg_of_neg_of_pos (by nlinarith) h1p
  · refine ⟨100 * (1 - p) / p, ?_, ?_, ?_⟩
    · simp only [prob_to_american, if_neg hno, if_neg hp]
    · have hpos : 0 < 100 * (1 - p) / p := by positivity
      rw [abs_of_pos hpos, le_div_iff₀ h0]
      push_neg at hp
      nlinarith
    · constructor
      · intro hneg
        exact absurd (le_of_lt (div_pos (by nlinarith) h0)) (not_le.mpr hneg)
      · intro hhalf; exact absurd hhalf hp

/-- Witness for C10 at `p = 3/4`. -/
theorem prob_to_american_range_witness :
    ∃ m : ℚ, prob_to_american (some (3 / 4)) = some m ∧ 100 ≤ |m| ∧
      (m < 0 ↔ 1 / 2 ≤ (3 / 4 : ℚ)) :=
  prob_to_american_range (3 / 4) (by norm_num) (by norm_num)

/-- Counterexample to C3 as stated: at `p = 1/2` both the home line and the
away line are defined and equal to -100, so the two defined lines do not
have opposite signs. -/
theorem moneyline_half_not_opposite :
    prob_to_american (some (1 / 2)) = some (-100) ∧
    prob_to_american (oneMinusP (some (1 / 2))) = some (-100) ∧
    ¬ ((-100 : ℚ) * (-100) < 0) := by
  refine ⟨by norm_num [prob_to_american], ?_, by norm_num⟩
  show prob_to_american (some (1 - 1 / 2)) = some (-100)
  norm_num [prob_to_american]

/-- The implied probability of the favorite-priced line recovers `p`. -/
theorem impliedProb_fav (q : ℚ) (h0 : 0 < q) (h1 : q < 1) :
    impliedProb (-100 * q / (1 - q)) = q := by
  have h1q : 0 < 1 - q := by linarith
  have hneg : -100 * q / (1 - q) < 0 :=
    div_neg_of_neg_of_pos (by nlinarith) h1q
  rw [impliedProb, if_pos hneg]
  have hrw : -(-100 * q / (1 - q)) = 100 * q / (1 - q) := by ring
  rw [hrw]
  have hdpos : 0 < 100 * q / (1 - q) + 100 := by
    have := div_pos (show (0:ℚ) < 100 * q by nlinarith) h1q
    linarith
  rw [div_eq_iff (ne_of_gt hdpos)]
  field_simp
  ring

/-- The implied probability of the underdog-priced line recovers `p`. -/
theorem impliedProb_dog (q : ℚ) (h0 : 0 < q) (h1 : q < 1) :
    impliedProb (100 * (1 - q) / q) = q := by
  have hpos : 0 < 100 * (1 - q) / q := div_pos (by nlinarith) h0
  rw [impliedProb, if_neg (not_lt.mpr (le_of_lt hpos))]
  field_simp
  ring

/-- Claim C3 (amended): for every probability input `p`, the home line from
`p` and the away line from `1 - p` are either both undefined, or both
defined, exactly inverted by the implied-probability formula; the two
defined lines have opposite signs except at `p = 1/2`, where both sides are
the even-money line -100. -/
theorem moneyline_round_trip (p : Option ℚ) :
    (prob_to_american p = none ∧ prob_to_american (oneMinusP p) = none) ∨
    (∃ a b : ℚ, prob_to_american p = some a ∧
      prob_to_american (oneMinusP p) = some b ∧
      p = some (impliedProb a) ∧ oneMinusP p = some (impliedProb b) ∧
      (a * b < 0 ∨ (p = some (1 / 2) ∧ a = -100 ∧ b = -100))) := by
  match p with
  | none => exact Or.inl ⟨rfl, rfl⟩
  | some q =>
    simp only [oneMinusP]
    by_cases hout : q ≤ 0 ∨ 1 ≤ q
    · refine Or.inl ⟨by simp only [prob_to_american, if_pos hout], ?_⟩
      have hout2 : (1 - q) ≤ 0 ∨ 1 ≤ (1 - q) := by
        rcases hout with h | h
        · exact Or.inr (by linarith)
        · exact Or.inl (by linarith)
      simp only [prob_to_american, if_pos hout2]
    · push_neg at hout
      obtain ⟨h0, h1⟩ := hout
      have hno : ¬ (q ≤ 0 ∨ 1 ≤ q) := by push_neg; exact ⟨h0, h1⟩
      have hno2 : ¬ ((1 - q) ≤ 0 ∨ 1 ≤ (1 - q)) := by push_neg; constructor <;> linarith
      have h1q : 0 < 1 - q := by linarith
      rcases lt_trichotomy q (1 / 2) with hlt | heq | hgt
      · -- q < 1/2: home is underdog-priced (positive), away favorite-priced
        refine Or.inr ⟨100 * (1 - q) / q, -100 * (1 - q) / (1 - (1 - q)), ?_, ?_, ?_, ?_, ?_⟩
        · simp only [prob_to_american, if_neg hno, if_neg (not_le.mpr hlt)]
        · have hhalf : 1 / 2 ≤ 1 - q := by linarith
          simp only [prob_to_american, if_neg hno2, if_pos hhalf]
        · rw [impliedProb_dog q h0 h1]
        · rw [impliedProb_fav (1 - q) h1q (by linarith)]
        · refine Or.inl (mul_neg_of_pos_of_neg (div_pos (by nlinarith) h0) ?_)
          exact div_neg_of_neg_of_pos (by nlinarith) (by linarith)
      · -- q = 1/2: both sides are the even-money line -100
        subst heq
        refine Or.inr ⟨-100, -100, by norm_num [prob_to_american],
          by norm_num [prob_to_american], by norm_num [impliedProb],
          by norm_num [impliedProb], Or.inr ⟨rfl, rfl, rfl⟩⟩
      · -- q > 1/2: home is favorite-priced (negative), away underdog-priced
        refine Or.inr ⟨-100 * q / (1 - q), 100 * (1 - (1 - q)) / (1 - q), ?_, ?_, ?_, ?_, ?_⟩
        · simp only [prob_to_american, if_neg hno, if_pos (le_of_lt hgt)]
        · have hhalf : ¬ (1 / 2 ≤ 1 - q) := by push_neg; linarith
          simp only [prob_to_american, if_neg hno2, if_neg hhalf]
        · rw [impliedProb_fav q h0 h1]
        · rw [impliedProb_dog (1 - q) h1q (by linarith)]
        · refine Or.inl (mul_neg_of_neg_of_pos (div_neg_of_neg_of_pos (by nlinarith) h1q) ?_)
          exact div_pos (by nlinarith) h1q

/-- Witness for C3 (amended) at `p = 3/4`. -/
theorem moneyline_round_trip_witness :
    (prob_to_american (some (3 / 4)) = none ∧
      prob_to_american (oneMinusP (some (3 / 4))) = none) ∨
    (∃ a b : ℚ, prob_to_american (some (3 / 4)) = some a ∧
      prob_to_american (oneMinusP (some (3 / 4))) = some b ∧
      some (3 / 4 : ℚ) = some (impliedProb a) ∧
      oneMinusP (some (3 / 4)) = some (impliedProb b) ∧
      (a * b < 0 ∨ (some (3 / 4 : ℚ) = some (1 / 2) ∧ a = -100 ∧ b = -100))) :=
  moneyline_round_trip (some (3 / 4))

/-- Replacing the row at an index beyond a prefix leaves the prefix intact. -/
theorem take_set_of_le {α : Type} (l : List α) (N : ℕ) (x : α) (i : ℕ) (h : i ≤ N) :
    (l.set N x).take i = l.take i := by
  induction l generalizing N i with
  | nil => simp
  | cons a as ih =>
    cases N with
    | zero =>
      have hi : i = 0 := Nat.le_zero.mp h
      subst hi; simp
    | succ M =>
      cases i with
      | zero => simp
      | succ j =>
        rw [List.set_cons_succ, List.take_succ_cons, List.take_succ_cons,
          ih M j (Nat.le_of_succ_le_succ h)]

/-- Reading away from the replaced index is unchanged. -/
theorem getD_set_ne {α : Type} [Inhabited α] (l : List α) (N : ℕ) (x : α) (i : ℕ)
    (h : i ≠ N) :
    (l.set N x).getD i default = l.getD i default := by
  induction l generalizing N i with
  | nil => simp
  | cons a as ih =>
    cases N with
    | zero =>
      cases i with
      | zero => exact absurd rfl h
      | succ j => simp
    | succ M =>
      cases i with
      | zero => simp
      | succ j => simpa using ih M j (fun hh => h (by omega))

/-- Replacing a row with one of the same date leaves every date read
unchanged. -/
theorem date_getD_set (l : List GRow) (N : ℕ) (x : GRow) (i : ℕ)
    (hx : x.date = (l.getD N default).date) :
    ((l.set N x).getD i default).date = (l.getD i default).date := by
  by_cases h : i = N
  · subst h
    induction l generalizing i with
    | nil => simp
    | cons a as ih =>
      cases i with
      | zero => simpa using hx
      | succ j =>
        rw [List.set_cons_succ, List.getD_cons_succ, List.getD_cons_succ]
        exact ih j (by simpa using hx)
  · rw [getD_set_ne l N x i h]

/-- The mutation of C2: overwrite one row's own scores, keeping its
identity, date and ordering keys. -/
def mutateScores (r : GRow) (p o : ℚ) : GRow :=
  { r with pts := p, opp_pts := o }

/-- The day gaps are untouched by a score mutation. -/
theorem gapOrFill_set_mutate (l : List GRow) (N : ℕ) (p o : ℚ) (i : ℕ) :
    gapOrFill (l.set N (mutateScores (l.getD N default) p o)) i = gapOrFill l i := by
  unfold gapOrFill
  by_cases h0 : i = 0
  · simp [h0]
  · rw [if_neg h0, if_neg h0,
      date_getD_set l N (mutateScores (l.getD N default) p o) i rfl,
      date_getD_set l N (mutateScores (l.getD N default) p o) (i - 1) rfl]

/-- Claim C2 (leakage freedom): mutating the scores of a team's Nth game
row changes neither the inference-side nor the training-side rolling
features attached to any row up to and including the Nth.  The sort keys
(date, game_id, start_time) are untouched by the mutation, so positions in
the sorted per-team history are preserved and the statement is over the
sorted history directly. -/
theorem rolling_leakage_free (l : List GRow) (N : ℕ) (p o : ℚ) (i : ℕ) (hiN : i ≤ N) :
    predictFeats (l.set N (mutateScores (l.getD N default) p o)) i = predictFeats l i ∧
    trainFeats (l.set N (mutateScores (l.getD N default) p o)) i = trainFeats l i := by
  have hwin : priorWin (l.set N (mutateScores (l.getD N default) p o)) i = priorWin l i := by
    unfold priorWin
    rw [take_set_of_le l N _ i hiN]
  have hgap := gapOrFill_set_mutate l N p o i
  refine ⟨?_, ?_⟩
  · simp only [predictFeats, predictRest, hwin, hgap]
  · simp only [trainFeats, trainRest, hwin, hgap]

/-- Two-game history used by the leakage witness. -/
def leakList : List GRow :=
  [⟨0, 1, 1, true, 70, 60⟩, ⟨3, 2, 1, false, 80, 90⟩]

/-- Witness for C2: mutating game 1's scores to 50-55 leaves row 1's
features unchanged. -/
theorem rolling_leakage_free_witness :
    predictFeats (leakList.set 1 (mutateScores (leakList.getD 1 default) 50 55)) 1 =
      predictFeats leakList 1 ∧
    trainFeats (leakList.set 1 (mutateScores (leakList.getD 1 default) 50 55)) 1 =
      trainFeats leakList 1 :=
  rolling_leakage_free leakList 1 50 55 1 le_rfl

/-- Claim C9: `gp_prev` at row `i` of a team's chronologically ordered
history is exactly the number of strictly prior rows, i.e. `i` (0 for the
first game, K-1 for the Kth); it is positional, hence monotone, and no
season information enters the computation. -/
theorem gp_prev_spec (l : List GRow) (i : ℕ) (h : i < l.length) :
    (predictFeats l i).gp_prev = (l.take i).length ∧
    (trainFeats l i).gp_prev = (l.take i).length ∧
    (l.take i).length = i := by
  have ht : (l.take i).length = i := by
    rw [List.length_take]
    omega
  exact ⟨by simp [predictFeats, ht], by simp [trainFeats, ht], ht⟩

/-- Two-game history used by the gp_prev witness. -/
def gpList : List GRow :=
  [⟨0, 1, 3, true, 61, 60⟩, ⟨5, 2, 3, false, 62, 63⟩]

/-- Witness for C9 at the second game of a two-game history. -/
theorem gp_prev_spec_witness :
    (predictFeats gpList 1).gp_prev = (gpList.take 1).length ∧
    (trainFeats gpList 1).gp_prev = (gpList.take 1).length ∧
    (gpList.take 1).length = 1 :=
  gp_prev_spec gpList 1 (by norm_num [gpList])

/-- Date-monotonicity of a per-team history, the consequence of the
(date, game_id) sort both calculators apply before computing gaps. -/
def datesMono (l : List GRow) : Prop :=
  ∀ j : ℕ, j + 1 < l.length → (l.getD j default).date ≤ (l.getD (j + 1) default).date

/-- Two-game history with a 20-day gap, exhibiting the clamp divergence. -/
def gapList : List GRow :=
  [⟨0, 1, 1, true, 70, 60⟩, ⟨20, 2, 1, false, 80, 90⟩]

/-- Claim C7: the training-side rest days are always the inference-side
rest days clamped to 14, the two agree exactly when the inference-side
value is at most 14, the inference-side computation applies no effective
clamp on sorted histories (it returns the raw gap), and they genuinely
diverge on a 20-day gap (20 vs 14). -/
theorem rest_days_clamp_asymmetry :
    (∀ (l : List GRow) (i : ℕ),
        (trainFeats l i).rest_days = min 14 ((predictFeats l i).rest_days)) ∧
    (∀ (l : List GRow) (i : ℕ),
        (trainFeats l i).rest_days = (predictFeats l i).rest_days ↔
          (predictFeats l i).rest_days ≤ 14) ∧
    (∀ (l : List GRow) (i : ℕ), datesMono l → i < l.length →
        (predictFeats l i).rest_days = gapOrFill l i) ∧
    ((predictFeats gapList 1).rest_days = 20 ∧ (trainFeats gapList 1).rest_days = 14) := by
  have h1 : ∀ (l : List GRow) (i : ℕ),
      (trainFeats l i).rest_days = min 14 ((predictFeats l i).rest_days) := by
    intro l i; rfl
  refine ⟨h1, ?_, ?_, ?_, ?_⟩
  · intro l i
    rw [h1 l i]
    exact min_eq_right_iff
  · intro l i hm hi
    show predictRest l i = gapOrFill l i
    unfold predictRest
    cases i with
    | zero => simp [gapOrFill]
    | succ j =>
      have hge : 0 ≤ gapOrFill l (j + 1) := by
        have := hm j hi
        unfold gapOrFill
        rw [if_neg (Nat.succ_ne_zero j)]
        simp only [Nat.add_sub_cancel]
        omega
      exact max_eq_right hge
  · decide
  · decide

/-- Witness for C7: on the concrete sorted two-row history with a 20-day
gap, the inference-side rest days equal the raw unclamped gap. -/
theorem rest_days_clamp_asymmetry_witness :
    (predictFeats gapList 1).rest_days = gapOrFill gapList 1 :=
  rest_days_clamp_asymmetry.2.2.1 gapList 1
    (fun j hj => by
      have hj0 : j = 0 := by
        simp only [gapList, List.length_cons, List.length_nil] at hj
        omega
      subst hj0
      decide)
    (by decide)

/-- The four team-game rows of the C1 scenario: game 100 on day 10 (team 1
at home, 80-75 over team 2) and game 101 on day 12 (team 2 at home, 70-65
over team 1). -/
def scenarioGames : List GRow :=
  [⟨10, 100, 1, true, 80, 75⟩, ⟨10, 100, 2, false, 75, 80⟩,
   ⟨12, 101, 2, true, 70, 65⟩, ⟨12, 101, 1, false, 65, 70⟩]

/-- Claim C1 evaluated: the as-of snapshot the code retains for team 1 at
cutoff day 12 carries an undefined points mean, `gp_prev = 0` and
`rest_days = 7` — not the mean 80, `gp_prev = 1`, `rest_days = 2` the claim
asserts.  The retained row is team 1's single historical row (game 100),
whose rolling features were shifted to exclude that game itself. -/
theorem asof_snapshot_scenario :
    asofSnapshot scenarioGames 12 1 =
      some { pts_mean_5 := none, opp_pts_mean_5 := none, margin_mean_5 := none,
             pts_var_5 := none, opp_pts_var_5 := none, rest_days := 7, gp_prev := 0 } := by
  decide

/-- One merged home/away game row of the training frame `g` of
`build_training_from_games.py` main, restricted to the columns the
eligibility filter and the final sort read. -/
structure PairedGame where
  date : ℤ
  game_id : ℕ
  home_gp_prev : ℕ
  away_gp_prev : ℕ
deriving DecidableEq, Repr, Inhabited

/-- The training eligibility predicate (`build_training_from_games.py`
line 134): both teams have at least 3 prior games. -/
def eligible (g : PairedGame) : Prop :=
  3 ≤ g.home_gp_prev ∧ 3 ≤ g.away_gp_prev

instance : DecidablePred eligible := fun g => by
  unfold eligible; infer_instance

/-- The (date, game_id) ascending order of the training output
(`sort_values(["date", "game_id"])`, line 135). -/
def pairLe (a b : PairedGame) : Prop :=
  a.date < b.date ∨ (a.date = b.date ∧ a.game_id ≤ b.game_id)

instance : DecidableRel pairLe := fun a b => by
  unfold pairLe; infer_instance

instance : IsTotal PairedGame pairLe := by
  refine ⟨fun a b => ?_⟩
  unfold pairLe
  omega

instance : IsTrans PairedGame pairLe := by
  refine ⟨fun a b c hab hbc => ?_⟩
  unfold pairLe at hab hbc ⊢
  omega

/-- The training output of `build_training_from_games.py` main lines
133-135: keep the eligible games and sort ascending by (date, game_id). -/
def trainingOutput (gs : List PairedGame) : List PairedGame :=
  List.insertionSort pairLe (gs.filter (fun g => decide (eligible g)))

/-- Claim C6: a paired game is in the training output iff it is in the
input and both sides have `gp_prev ≥ 3`, and the output is sorted
ascending by (date, game_id). -/
theorem training_eligibility (gs : List PairedGame) (g : PairedGame) :
    (g ∈ trainingOutput gs ↔
      g ∈ gs ∧ 3 ≤ g.home_gp_prev ∧ 3 ≤ g.away_gp_prev) ∧
    List.Sorted pairLe (trainingOutput gs) := by
  constructor
  · rw [trainingOutput, List.mem_insertionSort, List.mem_filter, decide_eq_true_eq]
    unfold eligible
    exact Iff.rfl
  · exact List.sorted_insertionSort pairLe _

/-- The boundary game of C6: exactly 3 prior games on each side. -/
def boundaryGame : PairedGame := ⟨0, 1, 3, 3⟩

/-- Witness for C6: the boundary game with exactly 3 prior games per side
is included in the training output. -/
theorem training_eligibility_witness :
    boundaryGame ∈ trainingOutput [boundaryGame] :=
  (training_eligibility [boundaryGame] boundaryGame).1.mpr
    ⟨List.mem_singleton_self boundaryGame, by decide, by decide⟩

/-- Pandas `drop_duplicates(keep="first")` under a key function: keep a
row iff its key was not seen on any earlier row. -/
def dedupFirstAux {α κ : Type} [DecidableEq κ] (key : α → κ) (seen : List κ) :
    List α → List α
  | [] => []
  | r :: rs =>
    if key r ∈ seen then dedupFirstAux key seen rs
    else r :: dedupFirstAux key (key r :: seen) rs

/-- `drop_duplicates(subset=key, keep="first")` on a whole frame. -/
def dedupFirst {α κ : Type} [DecidableEq κ] (key : α → κ) (l : List α) : List α :=
  dedupFirstAux key [] l

/-- Spec-side characterisation of first-occurrence deduplication: `r`
survives iff it sits at a position no earlier row of which shares its key. -/
def firstOccurrence {α κ : Type} [DecidableEq κ] (key : α → κ) (l : List α) (r : α) :
    Prop :=
  ∃ i : ℕ, l[i]? = some r ∧ ∀ j < i, ∀ x, l[j]? = some x → key x ≠ key r

theorem mem_dedupFirstAux {α κ : Type} [DecidableEq κ] (key : α → κ) :
    ∀ (l : List α) (seen : List κ) (r : α),
      r ∈ dedupFirstAux key seen l ↔
        key r ∉ seen ∧
          ∃ i : ℕ, l[i]? = some r ∧ ∀ j < i, ∀ x, l[j]? = some x → key x ≠ key r := by
  intro l
  induction l with
  | nil =>
    intro seen r
    simp [dedupFirstAux]
  | cons a as ih =>
    intro seen r
    by_cases hks : key a ∈ seen
    · rw [dedupFirstAux, if_pos hks, ih seen r]
      constructor
      · rintro ⟨hrs, i, hi, hprev⟩
        refine ⟨hrs, i + 1, by simpa using hi, ?_⟩
        intro j hj x hx
        cases j with
        | zero =>
          have hax : a = x := by simpa using hx
          subst hax
          intro hkey
          exact hrs (hkey ▸ hks)
        | succ m =>
          exact hprev m (by omega) x (by simpa using hx)
      · rintro ⟨hrs, i, hi, hprev⟩
        cases i with
        | zero =>
          have har : a = r := by simpa using hi
          subst har
          exact absurd hks hrs
        | succ m =>
          refine ⟨hrs, m, by simpa using hi, ?_⟩
          intro j hj x hx
          exact hprev (j + 1) (by omega) x (by simpa using hx)
    · rw [dedupFirstAux, if_neg hks, List.mem_cons, ih (key a :: seen) r]
      constructor
      · rintro (rfl | ⟨hrs, i, hi, hprev⟩)
        · exact ⟨hks, 0, by simp, fun j hj => absurd hj (Nat.not_lt_zero j)⟩
        · rw [List.mem_cons] at hrs
          push_neg at hrs
          obtain ⟨hne, hseen⟩ := hrs
          refine ⟨hseen, i + 1, by simpa using hi, ?_⟩
          intro j hj x hx
          cases j with
          | zero =>
            have hax : a = x := by simpa using hx
            subst hax
            exact fun h => hne h.symm
          | succ m =>
            exact hprev m (by omega) x (by simpa using hx)
      · rintro ⟨hseen, i, hi, hprev⟩
        cases i with
        | zero =>
          have har : a = r := by simpa using hi
          exact Or.inl har.symm
        | succ m =>
          have hka : key a ≠ key r := hprev 0 (Nat.succ_pos m) a (by simp)
          refine Or.inr ⟨?_, m, by simpa using hi, ?_⟩
          · rw [List.mem_cons]
            push_neg
            exact ⟨fun h => hka h.symm, hseen⟩
          · intro j hj x hx
            exact hprev (j + 1) (by omega) x (by simpa using hx)

theorem mem_dedupFirst {α κ : Type} [DecidableEq κ] (key : α → κ) (l : List α) (r : α) :
    r ∈ dedupFirst key l ↔ firstOccurrence key l r := by
  rw [dedupFirst, mem_dedupFirstAux key l [] r, firstOccurrence]
  simp

/-- The uniqueness key of `data/build_history.py` line 72 and
`src/assemble_history.py` line 31. -/
def key4 (r : GRow) : ℤ × ℕ × ℕ × Bool :=
  (r.date, r.game_id, r.team_id, r.is_home)

/-- The (smaller) deduplication key of `src/pipeline/ingest_range.py` line
61, which omits `is_home`. -/
def key3 (r : GRow) : ℤ × ℕ × ℕ :=
  (r.date, r.game_id, r.team_id)

/-- Dedup step of `data/build_history.py` main (line 72):
`drop_duplicates(subset=["date","game_id","team_id","is_home"], keep="first")`. -/
def buildHistoryDedup (l : List GRow) : List GRow :=
  dedupFirst key4 l

/-- Dedup step of `src/assemble_history.py` main (line 31): same 4-column
subset, default `keep="first"`. -/
def assembleHistoryDedup (l : List GRow) : List GRow :=
  dedupFirst key4 l

/-- Dedup step of `src/pipeline/ingest_range.py` `build_historical` (line
61): `drop_duplicates(subset=["date","game_id","team_id"])`, default
`keep="first"` — `is_home` is not part of the key. -/
def ingestDedup (l : List GRow) : List GRow :=
  dedupFirst key3 l

/-- Two rows agreeing on (date, game_id, team_id) but differing on
`is_home`; the ingest path conflates them. -/
def dupHome : GRow := ⟨0, 1, 5, true, 0, 0⟩

/-- See `dupHome`. -/
def dupAway : GRow := ⟨0, 1, 5, false, 0, 0⟩

/-- Counterexample to C8 as stated: the `ingest_range` assembly path drops
a row that is distinct under the claimed (date, game_id, team_id, is_home)
key, so not every history-assembly path deduplicates on that key. -/
theorem ingest_dedup_omits_is_home :
    ingestDedup [dupHome, dupAway] = [dupHome] ∧
    buildHistoryDedup [dupHome, dupAway] = [dupHome, dupAway] ∧
    key4 dupHome ≠ key4 dupAway := by
  refine ⟨?_, ?_, by decide⟩ <;> decide

/-- Claim C8 (amended): the `build_history` and `assemble_history` paths
deduplicate by keeping exactly the first occurrence of each
(date, game_id, team_id, is_home) key, while the `ingest_range` path keeps
the first occurrence of each (date, game_id, team_id) key, with `is_home`
omitted. -/
theorem dedup_key_per_path (l : List GRow) (r : GRow) :
    (r ∈ buildHistoryDedup l ↔ firstOccurrence key4 l r) ∧
    (r ∈ assembleHistoryDedup l ↔ firstOccurrence key4 l r) ∧
    (r ∈ ingestDedup l ↔ firstOccurrence key3 l r) :=
  ⟨mem_dedupFirst key4 l r, mem_dedupFirst key4 l r, mem_dedupFirst key3 l r⟩

/-- Witness for C8 (amended) on a concrete two-row log. -/
theorem dedup_key_per_path_witness :
    (dupAway ∈ buildHistoryDedup [dupHome, dupAway] ↔
      firstOccurrence key4 [dupHome, dupAway] dupAway) ∧
    (dupAway ∈ assembleHistoryDedup [dupHome, dupAway] ↔
      firstOccurrence key4 [dupHome, dupAway] dupAway) ∧
    (dupAway ∈ ingestDedup [dupHome, dupAway] ↔
      firstOccurrence key3 [dupHome, dupAway] dupAway) :=
  dedup_key_per_path [dupHome, dupAway] dupAway

end CbbPreds
